import Mathlib

/-!
Verification of the scheduler core of `moonraker/eventloop.py`.

The development shallowly embeds the two components of the source file:

* `Moonraker.Sys` together with the step function `Moonraker.tstep` embeds the
  `FlexTimer` class and its interaction with the host asyncio loop: the fields
  `running` and `timer_handle` mirror the instance attributes of the same
  names, `sched` is the loop's outstanding `call_at` entries created by the
  timer (a `TimerHandle.cancel()` marks an entry cancelled; a fired entry is
  consumed), `tasks` holds live `_call_wrapper` invocation tasks (phase
  `queued` before the coroutine body starts, `suspended` while awaiting the
  user callback's awaitable), and `invocations` records each time the user
  callback is actually invoked.  Interleavings of `start`, `stop`, the firing
  of a scheduled handle (`_schedule_task`), task-body entry and resumption are
  arbitrary lists of `TStep`s.  The value returned by the user callback is a
  parameter of the resumption step, so callbacks are fully arbitrary.

* `Moonraker.ELState` with `Moonraker.elstep` embeds `EventLoop`'s
  `register_callback`, `delay_callback` and `_async_callback`: callbacks are
  abstracted to a tag `isCoroFn` (the result of `inspect.iscoroutinefunction`)
  and, for plain functions, whether their call returns an awaitable.  The
  fields track the loop's `call_later` queue, the `call_soon` queue, created
  tasks, which coroutine objects have been constructed, which callback bodies
  have executed, and awaitables that were returned by plain callbacks and
  discarded (never awaited).
-/

namespace Moonraker

/-- An outstanding `call_at` entry created by the timer: its handle id, the
absolute loop time at which it fires, and whether `cancel()` was called. -/
structure SchedEntry where
  id : Nat
  time : Int
  cancelled : Bool
deriving DecidableEq, Repr

/-- Phase of a live `_call_wrapper` task: `queued` between `create_task` and
the body starting to run, `suspended` while awaiting the callback result. -/
inductive TaskPhase
  | queued
  | suspended
deriving DecidableEq, Repr

/-- Combined state of one `FlexTimer` and the loop facilities it uses. -/
structure Sys where
  now : Int
  running : Bool
  timer_handle : Option Nat
  sched : List SchedEntry
  tasks : List (Nat × TaskPhase)
  invocations : List Int
  nextId : Nat
deriving DecidableEq, Repr

/-- `TimerHandle.cancel()`: mark the entry with the given id cancelled. -/
def cancelId (h : Nat) (l : List SchedEntry) : List SchedEntry :=
  l.map (fun e => if e.id = h then { e with cancelled := true } else e)

/-- Remove a fired entry from the loop's outstanding queue. -/
def removeId (h : Nat) (l : List SchedEntry) : List SchedEntry :=
  l.filter (fun e => e.id ≠ h)

/-- Remove a finished task. -/
def removeTask (tid : Nat) (l : List (Nat × TaskPhase)) : List (Nat × TaskPhase) :=
  l.filter (fun t => t.1 ≠ tid)

/-- Move a task into the suspended phase. -/
def setSuspended (tid : Nat) (l : List (Nat × TaskPhase)) : List (Nat × TaskPhase) :=
  l.map (fun t => if t.1 = tid then (t.1, TaskPhase.suspended) else t)

/-- `FlexTimer.start(delay)`: return if already running; otherwise set
`running`, compute `call_time = get_loop_time() + delay` and store the handle
returned by `call_at(call_time, self._schedule_task)`. -/
def FlexTimer.start (d : Int) (s : Sys) : Sys :=
  if s.running then s
  else
    { s with
      running := true
      sched := s.sched ++ [⟨s.nextId, s.now + d, false⟩]
      timer_handle := some s.nextId
      nextId := s.nextId + 1 }

/-- `FlexTimer.stop()`: return if not running; otherwise clear `running` and,
if a handle is stored, cancel it and set the field to `None`. -/
def FlexTimer.stop (s : Sys) : Sys :=
  if s.running then
    match s.timer_handle with
    | none => { s with running := false }
    | some h =>
      { s with running := false, sched := cancelId h s.sched, timer_handle := none }
  else s

/-- `FlexTimer.is_running()`. -/
def FlexTimer.is_running (s : Sys) : Bool :=
  s.running

/-- `FlexTimer._schedule_task`: runs when a scheduled handle fires; clears
`timer_handle` and creates the `_call_wrapper` task (initially queued). -/
def schedule_task (s : Sys) : Sys :=
  { s with
    timer_handle := none
    tasks := s.tasks ++ [(s.nextId, TaskPhase.queued)]
    nextId := s.nextId + 1 }

/-- The loop may fire handle `h` iff an uncancelled entry with that id has
reached its scheduled time. -/
def fireEnabled (h : Nat) (s : Sys) : Bool :=
  s.sched.any (fun e => e.id == h && !e.cancelled && decide (e.time ≤ s.now))

/-- One scheduler event for the timer system. -/
inductive TStep
  | startT (d : Int)
  | stopT
  | advance (dt : Int)
  | fire (h : Nat)
  | entry (tid : Nat)
  | resume (tid : Nat) (ret : Int)
deriving DecidableEq, Repr

/-- Semantics of one event.  `fire` consumes the entry and runs
`_schedule_task`.  `entry` runs the body of `_call_wrapper` up to the `await`:
if `running` is false it returns at once (cancellation race guard); otherwise
it invokes the user callback at the current loop time and suspends.  `resume`
finishes the body with the callback's returned timestamp `ret`: if `running`
is still true it stores `call_at(ret, self._schedule_task)` in
`timer_handle`, otherwise it does nothing further.  A callback completing
synchronously is the special case in which `entry` and `resume` are adjacent
in the trace. -/
def tstep : TStep → Sys → Sys
  | TStep.startT d, s => FlexTimer.start d s
  | TStep.stopT, s => FlexTimer.stop s
  | TStep.advance dt, s => if 0 ≤ dt then { s with now := s.now + dt } else s
  | TStep.fire h, s =>
    if fireEnabled h s then schedule_task { s with sched := removeId h s.sched } else s
  | TStep.entry tid, s =>
    if (tid, TaskPhase.queued) ∈ s.tasks then
      if s.running then
        { s with
          invocations := s.invocations ++ [s.now]
          tasks := setSuspended tid s.tasks }
      else { s with tasks := removeTask tid s.tasks }
    else s
  | TStep.resume tid ret, s =>
    if (tid, TaskPhase.suspended) ∈ s.tasks then
      if s.running then
        { s with
          sched := s.sched ++ [⟨s.nextId, ret, false⟩]
          timer_handle := some s.nextId
          nextId := s.nextId + 1
          tasks := removeTask tid s.tasks }
      else { s with tasks := removeTask tid s.tasks }
    else s

/-- Run a trace of events. -/
def runT (tr : List TStep) (s : Sys) : Sys :=
  tr.foldl (fun s st => tstep st s) s

/-- State of a freshly constructed timer on a fresh loop. -/
def initSys : Sys :=
  { now := 0, running := false, timer_handle := none, sched := [], tasks := []
    invocations := [], nextId := 0 }

/-- The user callback raises at the invocation point `self.callback(...)`:
the guard has just seen `running = true`, the callback is entered (recorded)
and the exception kills the task; no state of the timer is touched and
nothing is rescheduled. -/
def entryRaise (tid : Nat) (s : Sys) : Sys :=
  if (tid, TaskPhase.queued) ∈ s.tasks then
    if s.running then
      { s with
        invocations := s.invocations ++ [s.now]
        tasks := removeTask tid s.tasks }
    else { s with tasks := removeTask tid s.tasks }
  else s

/-- The awaited callback result raises at `ret = await ret`: the exception
propagates out of `_call_wrapper` before the second `running` check, so the
task dies with no reschedule and no field change. -/
def resumeRaise (tid : Nat) (s : Sys) : Sys :=
  if (tid, TaskPhase.suspended) ∈ s.tasks then
    { s with tasks := removeTask tid s.tasks }
  else s

/-- Ids of the loop's outstanding uncancelled entries. -/
def liveIds (l : List SchedEntry) : List Nat :=
  (l.filter (fun e => !e.cancelled)).map (fun e => e.id)

/-- View an optional handle as a list of ids. -/
def handleList : Option Nat → List Nat
  | none => []
  | some h => [h]

/-- Is an event a `start()` call? -/
def isStartStep : TStep → Bool
  | TStep.startT _ => true
  | _ => false

/-- A trace is well-behaved from `s` when `start()` is only invoked while no
`_call_wrapper` task is in flight. -/
def goodTrace : Sys → List TStep → Bool
  | _, [] => true
  | s, st :: tr => (!isStartStep st || s.tasks.isEmpty) && goodTrace (tstep st s) tr

/-- Reachability invariant of the timer system (for well-behaved traces):
the loop's uncancelled entries are exactly the one referenced by
`timer_handle`; a stopped timer holds no handle; a running timer holds a
handle or has a live invocation task; a held handle excludes live tasks; and
at most one task is live. -/
structure Inv (s : Sys) : Prop where
  live_eq : liveIds s.sched = handleList s.timer_handle
  stopped_none : s.running = false → s.timer_handle = none
  running_active : s.running = true → s.timer_handle ≠ none ∨ s.tasks ≠ []
  handle_no_task : s.timer_handle ≠ none → s.tasks = []
  tasks_le_one : s.tasks.length ≤ 1

/-- A callback value for the facade: its identity, the result of
`inspect.iscoroutinefunction` on it, and — for plain functions — whether
calling it returns an awaitable object. -/
structure Cb where
  id : Nat
  isCoroFn : Bool
  returnsAwaitable : Bool
deriving DecidableEq, Repr

/-- What `call_later` stored for a delayed callback: for coroutine functions
a `functools.partial` factory handed to `_async_callback` (the coroutine is
not yet constructed), for plain functions a `functools.partial` of the
function itself. -/
inductive Payload
  | asyncThunk (cb : Cb)
  | plainThunk (cb : Cb)
deriving DecidableEq, Repr

/-- An outstanding `call_later` entry of the loop. -/
structure TEntry where
  handle : Nat
  time : Int
  cancelled : Bool
  payload : Payload
deriving DecidableEq, Repr

/-- State of the `EventLoop` facade and the underlying asyncio loop:
`timerQueue` holds `call_later` entries, `soonQueue` the `call_soon` queue,
`tasks` ids of coroutines wrapped as tasks and not yet run, `constructed`
ids of coroutine objects that have been constructed, `executed` ids of
callback bodies that have run, and `orphans` ids of awaitables that were
returned by plain callbacks and discarded without being awaited. -/
structure ELState where
  now : Int
  nextH : Nat
  timerQueue : List TEntry
  soonQueue : List Cb
  tasks : List Nat
  constructed : List Nat
  executed : List Nat
  orphans : List Nat
deriving DecidableEq, Repr

/-- `EventLoop.register_callback(callback, *args, **kwargs)`: a coroutine
function is called (constructing the coroutine object) and wrapped with
`create_task`; a plain function is queued with
`call_soon(functools.partial(callback, *args, **kwargs))`.  Nothing is
executed before returning. -/
def register_callback (cb : Cb) (s : ELState) : ELState :=
  if cb.isCoroFn then
    { s with constructed := s.constructed ++ [cb.id], tasks := s.tasks ++ [cb.id] }
  else
    { s with soonQueue := s.soonQueue ++ [cb] }

/-- `EventLoop.delay_callback(delay, callback, *args, **kwargs)`: both
branches are `call_later(delay, thunk)` — i.e. an entry at absolute time
`now + delay` — returning the timer handle; a coroutine function is wrapped
as `_async_callback(functools.partial(...))`, a plain function as
`functools.partial(...)` directly. -/
def delay_callback (delay : Int) (cb : Cb) (s : ELState) : ELState × Nat :=
  if cb.isCoroFn then
    ({ s with
        timerQueue := s.timerQueue ++ [⟨s.nextH, s.now + delay, false, Payload.asyncThunk cb⟩]
        nextH := s.nextH + 1 }, s.nextH)
  else
    ({ s with
        timerQueue := s.timerQueue ++ [⟨s.nextH, s.now + delay, false, Payload.plainThunk cb⟩]
        nextH := s.nextH + 1 }, s.nextH)

/-- `EventLoop._async_callback(callback)`: invoked at fire time; calls the
stored factory, constructing the coroutine object, and wraps it with
`create_task`. -/
def async_callback (cb : Cb) (s : ELState) : ELState :=
  { s with constructed := s.constructed ++ [cb.id], tasks := s.tasks ++ [cb.id] }

/-- Invocation of a plain callback by the loop: its body runs; if the call
returns an awaitable, asyncio discards the return value of a
`call_soon`/`call_later` callback, so the awaitable is orphaned. -/
def invokePlain (cb : Cb) (s : ELState) : ELState :=
  if cb.returnsAwaitable then
    { s with executed := s.executed ++ [cb.id], orphans := s.orphans ++ [cb.id] }
  else
    { s with executed := s.executed ++ [cb.id] }

/-- One event of the loop underlying the facade. -/
inductive ELStep
  | advance (dt : Int)
  | fireTimer (h : Nat)
  | runSoon
  | runTask
  | cancelTimer (h : Nat)
deriving DecidableEq, Repr

/-- Semantics of loop events: `fireTimer` consumes a due uncancelled entry
and invokes its payload; `runSoon` pops the `call_soon` queue; `runTask`
runs a created task's body; `cancelTimer` is `TimerHandle.cancel()`. -/
def elstep : ELStep → ELState → ELState
  | ELStep.advance dt, s => if 0 ≤ dt then { s with now := s.now + dt } else s
  | ELStep.fireTimer h, s =>
    match s.timerQueue.find? (fun e => e.handle == h && !e.cancelled && decide (e.time ≤ s.now)) with
    | none => s
    | some e =>
      let s2 := { s with timerQueue := s.timerQueue.filter (fun e2 => e2.handle ≠ h) }
      match e.payload with
      | Payload.asyncThunk cb => async_callback cb s2
      | Payload.plainThunk cb => invokePlain cb s2
  | ELStep.runSoon, s =>
    match s.soonQueue with
    | [] => s
    | cb :: rest => invokePlain cb { s with soonQueue := rest }
  | ELStep.runTask, s =>
    match s.tasks with
    | [] => s
    | t :: rest => { s with tasks := rest, executed := s.executed ++ [t] }
  | ELStep.cancelTimer h, s =>
    { s with
      timerQueue := s.timerQueue.map (fun e =>
        if e.handle = h then { e with cancelled := true } else e) }

/-- Run a trace of loop events. -/
def runEL (tr : List ELStep) (s : ELState) : ELState :=
  tr.foldl (fun s st => elstep st s) s

/-- State of a fresh loop facade. -/
def initEL : ELState :=
  { now := 0, nextH := 0, timerQueue := [], soonQueue := [], tasks := []
    constructed := [], executed := [], orphans := [] }

/-- The callback id of a stored coroutine factory, if the payload is one. -/
def payloadAsyncId : Payload → Option Nat
  | Payload.asyncThunk cb => some cb.id
  | Payload.plainThunk _ => none

/-- No uncancelled `call_later` entry holds a coroutine factory for callback
id `i`. -/
def noLiveAsync (i : Nat) (l : List TEntry) : Bool :=
  l.all (fun e => e.cancelled || decide (payloadAsyncId e.payload ≠ some i))

lemma liveIds_append_live (l : List SchedEntry) (i : Nat) (t : Int) :
    liveIds (l ++ [⟨i, t, false⟩]) = liveIds l ++ [i] := by
  simp [liveIds, List.filter_append]

lemma liveIds_cancelId (h : Nat) (l : List SchedEntry) :
    liveIds (cancelId h l) = (liveIds l).filter (fun x => x ≠ h) := by
  induction l with
  | nil => simp [liveIds, cancelId]
  | cons e l ih =>
    by_cases he : e.id = h
    · by_cases hc : e.cancelled
      · simpa [liveIds, cancelId, List.filter_cons, hc, he] using ih
      · simp only [cancelId, List.map_cons, if_pos he] at *
        simpa [liveIds, List.filter_cons, hc, he] using ih
    · simp only [cancelId, List.map_cons, if_neg he] at *
      by_cases hc : e.cancelled
      · simpa [liveIds, List.filter_cons, hc] using ih
      · simpa [liveIds, List.filter_cons, hc, he] using ih

lemma liveIds_removeId (h : Nat) (l : List SchedEntry) :
    liveIds (removeId h l) = (liveIds l).filter (fun x => x ≠ h) := by
  induction l with
  | nil => simp [liveIds, removeId]
  | cons e l ih =>
    by_cases he : e.id = h
    · by_cases hc : e.cancelled
      · simpa [liveIds, removeId, List.filter_cons, hc, he] using ih
      · simp only [removeId, List.filter_cons] at *
        simpa [liveIds, List.filter_cons, hc, he] using ih
    · simp only [removeId, List.filter_cons] at *
      by_cases hc : e.cancelled
      · simpa [liveIds, List.filter_cons, hc, he] using ih
      · simpa [liveIds, List.filter_cons, hc, he] using ih

lemma fireEnabled_mem_liveIds (h : Nat) (s : Sys) (hen : fireEnabled h s = true) :
    h ∈ liveIds s.sched := by
  simp only [fireEnabled, List.any_eq_true, Bool.and_eq_true, beq_iff_eq,
    Bool.not_eq_true', decide_eq_true_eq] at hen
  obtain ⟨e, hmem, ⟨hid, hc⟩, _⟩ := hen
  simp only [liveIds, List.mem_map, List.mem_filter]
  exact ⟨e, ⟨hmem, by simp [hc]⟩, hid⟩

lemma setSuspended_length (tid : Nat) (l : List (Nat × TaskPhase)) :
    (setSuspended tid l).length = l.length := by
  simp [setSuspended]

lemma setSuspended_ne_nil (tid : Nat) (l : List (Nat × TaskPhase)) (hl : l ≠ []) :
    setSuspended tid l ≠ [] := by
  intro hnil
  exact hl (List.length_eq_zero.mp (by rw [← setSuspended_length tid l, hnil]; rfl))

lemma removeTask_length_le (tid : Nat) (l : List (Nat × TaskPhase)) :
    (removeTask tid l).length ≤ l.length :=
  List.length_filter_le _ l

lemma removeTask_eq_nil (tid : Nat) (ph : TaskPhase) (l : List (Nat × TaskPhase))
    (hlen : l.length ≤ 1) (hmem : (tid, ph) ∈ l) : removeTask tid l = [] := by
  cases l with
  | nil => simp at hmem
  | cons x xs =>
    cases xs with
    | nil =>
      simp only [List.mem_singleton] at hmem
      simp [removeTask, List.filter_cons, hmem.symm]
    | cons y ys => simp at hlen

lemma mem_tasks_ne_nil {tid : Nat} {ph : TaskPhase} {l : List (Nat × TaskPhase)}
    (hmem : (tid, ph) ∈ l) : l ≠ [] := by
  intro hnil
  rw [hnil] at hmem
  simp at hmem

lemma inv_preserved (st : TStep) (s : Sys) (hs : Inv s)
    (hgood : isStartStep st = true → s.tasks = []) : Inv (tstep st s) := by
  obtain ⟨c1, c2, c3, c4, c5⟩ := hs
  cases st with
  | startT d =>
    have htask : s.tasks = [] := hgood rfl
    by_cases hr : s.running = true
    · simp only [tstep, FlexTimer.start, if_pos hr]
      exact ⟨c1, c2, c3, c4, c5⟩
    · have hrf : s.running = false := by simpa using hr
      have hh : s.timer_handle = none := c2 hrf
      simp only [tstep, FlexTimer.start, hrf, Bool.false_eq_true, if_false]
      refine ⟨?_, ?_, ?_, ?_, ?_⟩
      · simp [liveIds_append_live, c1, hh, handleList]
      · simp
      · simp
      · simp [htask]
      · simp [htask]
  | stopT =>
    by_cases hr : s.running = true
    · cases hh : s.timer_handle with
      | none =>
        simp only [tstep, FlexTimer.stop, if_pos hr, hh]
        refine ⟨?_, ?_, ?_, ?_, ?_⟩
        · simpa [hh] using c1
        · intro _; rfl
        · simp
        · intro hcon; exact absurd rfl hcon
        · exact c5
      | some h =>
        simp only [tstep, FlexTimer.stop, if_pos hr, hh]
        refine ⟨?_, ?_, ?_, ?_, ?_⟩
        · simp [liveIds_cancelId, c1, hh, handleList]
        · simp
        · simp
        · simp
        · exact c5
    · have hrf : s.running = false := by simpa using hr
      simp only [tstep, FlexTimer.stop, hrf, Bool.false_eq_true, if_false]
      exact ⟨c1, c2, c3, c4, c5⟩
  | advance dt =>
    by_cases hd : (0 : Int) ≤ dt
    · simp only [tstep, if_pos hd]
      exact ⟨c1, c2, c3, c4, c5⟩
    · simp only [tstep, if_neg hd]
      exact ⟨c1, c2, c3, c4, c5⟩
  | fire h =>
    by_cases hen : fireEnabled h s = true
    · have hmem := fireEnabled_mem_liveIds h s hen
      rw [c1] at hmem
      cases hh : s.timer_handle with
      | none =>
        rw [hh] at hmem
        simp [handleList] at hmem
      | some h' =>
        rw [hh] at hmem
        simp only [handleList, List.mem_singleton] at hmem
        subst hmem
        have htask : s.tasks = [] := c4 (by simp [hh])
        simp only [tstep, if_pos hen, schedule_task]
        refine ⟨?_, ?_, ?_, ?_, ?_⟩
        · simp [liveIds_removeId, c1, hh, handleList]
        · intro _; rfl
        · intro _
          right
          simp [htask]
        · intro hcon; exact absurd rfl hcon
        · simp [htask]
    · simp only [tstep, if_neg hen]
      exact ⟨c1, c2, c3, c4, c5⟩
  | entry tid =>
    by_cases hmem : (tid, TaskPhase.queued) ∈ s.tasks
    · have hne : s.tasks ≠ [] := mem_tasks_ne_nil hmem
      have hh : s.timer_handle = none := by
        by_contra hcon
        exact hne (c4 hcon)
      by_cases hr : s.running = true
      · simp only [tstep, if_pos hmem, if_pos hr]
        refine ⟨?_, ?_, ?_, ?_, ?_⟩
        · exact c1
        · exact c2
        · intro _
          right
          exact setSuspended_ne_nil tid s.tasks hne
        · intro hcon; exact absurd hh hcon
        · rw [setSuspended_length]; exact c5
      · have hrf : s.running = false := by simpa using hr
        simp only [tstep, if_pos hmem, hrf, Bool.false_eq_true, if_false]
        refine ⟨?_, ?_, ?_, ?_, ?_⟩
        · exact c1
        · intro _; exact hh
        · simp [hrf]
        · intro hcon; exact absurd hh hcon
        · exact le_trans (removeTask_length_le tid s.tasks) c5
    · simp only [tstep, if_neg hmem]
      exact ⟨c1, c2, c3, c4, c5⟩
  | resume tid ret =>
    by_cases hmem : (tid, TaskPhase.suspended) ∈ s.tasks
    · have hne : s.tasks ≠ [] := mem_tasks_ne_nil hmem
      have hh : s.timer_handle = none := by
        by_contra hcon
        exact hne (c4 hcon)
      have hnil : removeTask tid s.tasks = [] := removeTask_eq_nil tid _ s.tasks c5 hmem
      by_cases hr : s.running = true
      · simp only [tstep, if_pos hmem, if_pos hr]
        refine ⟨?_, ?_, ?_, ?_, ?_⟩
        · simp [liveIds_append_live, c1, hh, handleList]
        · simp [hr]
        · intro _
          left
          simp
        · intro _; exact hnil
        · simp [hnil]
      · have hrf : s.running = false := by simpa using hr
        simp only [tstep, if_pos hmem, hrf, Bool.false_eq_true, if_false]
        refine ⟨?_, ?_, ?_, ?_, ?_⟩
        · exact c1
        · intro _; exact hh
        · simp [hrf]
        · intro _; exact hnil
        · exact le_trans (removeTask_length_le tid s.tasks) c5
    · simp only [tstep, if_neg hmem]
      exact ⟨c1, c2, c3, c4, c5⟩

lemma stop_not_running (s : Sys) : (FlexTimer.stop s).running = false := by
  unfold FlexTimer.stop
  by_cases hr : s.running = true
  · rw [if_pos hr]
    cases s.timer_handle <;> rfl
  · rw [if_neg hr]
    simpa using hr

lemma stop_invocations (s : Sys) : (FlexTimer.stop s).invocations = s.invocations := by
  unfold FlexTimer.stop
  by_cases hr : s.running = true
  · rw [if_pos hr]
    cases s.timer_handle <;> rfl
  · rw [if_neg hr]

lemma stop_liveIds_subset (s : Sys) :
    liveIds (FlexTimer.stop s).sched ⊆ liveIds s.sched := by
  unfold FlexTimer.stop
  by_cases hr : s.running = true
  · rw [if_pos hr]
    cases hh : s.timer_handle with
    | none => exact fun a ha => ha
    | some h =>
      intro a ha
      have ha2 : a ∈ (liveIds s.sched).filter (fun x => x ≠ h) := by
        rw [← liveIds_cancelId]
        exact ha
      exact List.mem_of_mem_filter ha2
  · rw [if_neg hr]
    exact fun a ha => ha

lemma notRunning_step (st : TStep) (s : Sys) (h : s.running = false)
    (hst : isStartStep st = false) :
    (tstep st s).running = false ∧ (tstep st s).invocations = s.invocations ∧
      liveIds (tstep st s).sched ⊆ liveIds s.sched := by
  have hr2 : ¬ (s.running = true) := by simp [h]
  cases st with
  | startT d => simp [isStartStep] at hst
  | stopT =>
    simp only [tstep, FlexTimer.stop, if_neg hr2]
    exact ⟨h, by trivial, fun a ha => ha⟩
  | advance dt =>
    by_cases hd : (0 : Int) ≤ dt
    · simp only [tstep, if_pos hd]
      exact ⟨h, by trivial, fun a ha => ha⟩
    · simp only [tstep, if_neg hd]
      exact ⟨h, by trivial, fun a ha => ha⟩
  | fire hh =>
    by_cases hen : fireEnabled hh s = true
    · simp only [tstep, if_pos hen, schedule_task]
      refine ⟨h, by trivial, ?_⟩
      intro a ha
      have ha2 : a ∈ (liveIds s.sched).filter (fun x => x ≠ hh) := by
        rw [← liveIds_removeId]
        exact ha
      exact List.mem_of_mem_filter ha2
    · simp only [tstep, if_neg hen]
      exact ⟨h, by trivial, fun a ha => ha⟩
  | entry tid =>
    by_cases hmem : (tid, TaskPhase.queued) ∈ s.tasks
    · simp only [tstep, if_pos hmem, if_neg hr2]
      exact ⟨h, by trivial, fun a ha => ha⟩
    · simp only [tstep, if_neg hmem]
      exact ⟨h, by trivial, fun a ha => ha⟩
  | resume tid ret =>
    by_cases hmem : (tid, TaskPhase.suspended) ∈ s.tasks
    · simp only [tstep, if_pos hmem, if_neg hr2]
      exact ⟨h, by trivial, fun a ha => ha⟩
    · simp only [tstep, if_neg hmem]
      exact ⟨h, by trivial, fun a ha => ha⟩

lemma notRunning_run (tr : List TStep) (s : Sys) (h : s.running = false)
    (hns : ∀ st ∈ tr, isStartStep st = false) :
    (runT tr s).running = false ∧ (runT tr s).invocations = s.invocations ∧
      liveIds (runT tr s).sched ⊆ liveIds s.sched := by
  induction tr generalizing s with
  | nil => exact ⟨h, by trivial, fun a ha => ha⟩
  | cons st tr ih =>
    have h1 := notRunning_step st s h (hns st (List.mem_cons_self st tr))
    have h2 := ih (tstep st s) h1.1 (fun st2 hm => hns st2 (List.mem_cons_of_mem st hm))
    rw [show runT (st :: tr) s = runT tr (tstep st s) from rfl]
    exact ⟨h2.1, h2.2.1.trans h1.2.1, fun a ha => h1.2.2 (h2.2.2 ha)⟩

lemma inv_init : Inv initSys := by
  refine ⟨?_, ?_, ?_, ?_, ?_⟩ <;> simp [initSys, liveIds, handleList]

lemma inv_run (tr : List TStep) (s : Sys) (hs : Inv s) (hg : goodTrace s tr = true) :
    Inv (runT tr s) := by
  induction tr generalizing s with
  | nil => exact hs
  | cons st tr ih =>
    simp only [goodTrace, Bool.and_eq_true, Bool.or_eq_true, Bool.not_eq_true'] at hg
    obtain ⟨hg1, hg2⟩ := hg
    have hstep : Inv (tstep st s) := by
      refine inv_preserved st s hs (fun hst => ?_)
      rcases hg1 with h | h
      · rw [hst] at h; simp at h
      · exact List.isEmpty_iff.mp h
    simpa only [runT, List.foldl_cons] using ih (tstep st s) hstep hg2

lemma stop_noop (s : Sys) (h : s.running = false) : FlexTimer.stop s = s := by
  unfold FlexTimer.stop
  rw [if_neg (by simp [h])]

/-- C1: cancellation race guard — in every execution in which `stop()`
completes before the invocation task's body begins running (the body steps,
`entry`/`resume`, may appear anywhere in the subsequent trace) and no further
`start()` intervenes, the user callback is never invoked afterwards (the
body's `running` check aborts it) and nothing new is ever scheduled. -/
theorem cancellation_race_guard (s : Sys) (tr : List TStep)
    (hns : ∀ st ∈ tr, isStartStep st = false) :
    (runT tr (FlexTimer.stop s)).invocations = s.invocations ∧
      liveIds (runT tr (FlexTimer.stop s)).sched ⊆ liveIds s.sched := by
  have h := notRunning_run tr (FlexTimer.stop s) (stop_not_running s) hns
  exact ⟨h.2.1.trans (stop_invocations s),
    fun a ha => stop_liveIds_subset s (h.2.2 ha)⟩

/-- Witness for `cancellation_race_guard`: `start(1)`, the clock reaches the
fire time, the handle fires and creates the invocation task, `stop()` runs
before the task body; the body then runs (`entry`, `resume`) and the
callback is never invoked. -/
theorem cancellation_race_guard_witness :
    (runT [TStep.entry 1, TStep.resume 1 5]
        (FlexTimer.stop
          (runT [TStep.startT 1, TStep.advance 1, TStep.fire 0] initSys))).invocations =
      (runT [TStep.startT 1, TStep.advance 1, TStep.fire 0] initSys).invocations ∧
      liveIds (runT [TStep.entry 1, TStep.resume 1 5]
        (FlexTimer.stop
          (runT [TStep.startT 1, TStep.advance 1, TStep.fire 0] initSys))).sched ⊆
      liveIds (runT [TStep.startT 1, TStep.advance 1, TStep.fire 0] initSys).sched :=
  cancellation_race_guard (runT [TStep.startT 1, TStep.advance 1, TStep.fire 0] initSys)
    [TStep.entry 1, TStep.resume 1 5] (by decide)

/-- C3: reschedule correctness — when the invocation task resumes after the
user callback completed with timestamp `ret`: if the timer is still running,
the next dispatch is scheduled at exactly `ret` and the new handle is stored
as `timer_handle`; if the timer was stopped during the callback's execution,
nothing is scheduled and no handle is stored. -/
theorem reschedule_correctness (s : Sys) (tid : Nat) (ret : Int)
    (hmem : (tid, TaskPhase.suspended) ∈ s.tasks) :
    (s.running = true →
      tstep (TStep.resume tid ret) s =
        { s with sched := s.sched ++ [⟨s.nextId, ret, false⟩]
                 timer_handle := some s.nextId
                 nextId := s.nextId + 1
                 tasks := removeTask tid s.tasks }) ∧
    (s.running = false →
      tstep (TStep.resume tid ret) s = { s with tasks := removeTask tid s.tasks }) := by
  constructor <;> intro hr <;> simp [tstep, hmem, hr]

/-- Witness for `reschedule_correctness`: both branches at concrete states —
a running timer with a suspended task reschedules at exactly the returned
time `7`; the same state stopped does not. -/
theorem reschedule_correctness_witness :
    (tstep (TStep.resume 1 7)
        (runT [TStep.startT 0, TStep.fire 0, TStep.entry 1] initSys) =
      { runT [TStep.startT 0, TStep.fire 0, TStep.entry 1] initSys with
          sched := (runT [TStep.startT 0, TStep.fire 0, TStep.entry 1] initSys).sched ++
            [⟨(runT [TStep.startT 0, TStep.fire 0, TStep.entry 1] initSys).nextId, 7, false⟩]
          timer_handle := some (runT [TStep.startT 0, TStep.fire 0, TStep.entry 1] initSys).nextId
          nextId := (runT [TStep.startT 0, TStep.fire 0, TStep.entry 1] initSys).nextId + 1
          tasks := removeTask 1 (runT [TStep.startT 0, TStep.fire 0, TStep.entry 1] initSys).tasks }) ∧
    (tstep (TStep.resume 1 7)
        (runT [TStep.startT 0, TStep.fire 0, TStep.entry 1, TStep.stopT] initSys) =
      { runT [TStep.startT 0, TStep.fire 0, TStep.entry 1, TStep.stopT] initSys with
          tasks := removeTask 1
            (runT [TStep.startT 0, TStep.fire 0, TStep.entry 1, TStep.stopT] initSys).tasks }) :=
  ⟨(reschedule_correctness (runT [TStep.startT 0, TStep.fire 0, TStep.entry 1] initSys)
      1 7 (by decide)).1 (by decide),
    (reschedule_correctness (runT [TStep.startT 0, TStep.fire 0, TStep.entry 1, TStep.stopT] initSys)
      1 7 (by decide)).2 (by decide)⟩

/-- C4: `start(delay)` transition — a no-op when already running
(idempotent, no second schedule); otherwise it sets the state to running,
schedules the internal dispatch at the absolute time `now + d`, stores the
returned handle, and `is_running()` is true immediately afterwards, for
every delay `d`. -/
theorem start_transition (s : Sys) (d : Int) :
    (s.running = true → FlexTimer.start d s = s) ∧
    (s.running = false →
      FlexTimer.start d s =
        { s with running := true
                 sched := s.sched ++ [⟨s.nextId, s.now + d, false⟩]
                 timer_handle := some s.nextId
                 nextId := s.nextId + 1 } ∧
      FlexTimer.is_running (FlexTimer.start d s) = true) := by
  refine ⟨fun hr => ?_, fun hr => ⟨?_, ?_⟩⟩
  · simp [FlexTimer.start, hr]
  · simp [FlexTimer.start, hr]
  · simp [FlexTimer.start, FlexTimer.is_running, hr]

/-- Witness for `start_transition`: a second `start` on a started timer is a
no-op, and `start 3` on the fresh timer schedules at time `0 + 3` and is
running. -/
theorem start_transition_witness :
    (FlexTimer.start 5 (FlexTimer.start 3 initSys) = FlexTimer.start 3 initSys) ∧
    (FlexTimer.start 3 initSys =
      { initSys with running := true
                     sched := initSys.sched ++ [⟨initSys.nextId, initSys.now + 3, false⟩]
                     timer_handle := some initSys.nextId
                     nextId := initSys.nextId + 1 } ∧
      FlexTimer.is_running (FlexTimer.start 3 initSys) = true) :=
  ⟨(start_transition (FlexTimer.start 3 initSys) 5).1 (by decide),
    (start_transition initSys 3).2 (by decide)⟩

/-- C5: `stop()` transition and idempotence — a no-op when already stopped;
otherwise it clears `running` and, when a handle is pending, cancels it and
clears the field; `stop()` twice equals `stop()` once. -/
theorem stop_transition_idempotent (s : Sys) :
    (s.running = false → FlexTimer.stop s = s) ∧
    (FlexTimer.stop s).running = false ∧
    (s.running = true →
      (FlexTimer.stop s).timer_handle = none ∧
      (∀ h, s.timer_handle = some h →
        FlexTimer.stop s =
          { s with running := false, sched := cancelId h s.sched, timer_handle := none }) ∧
      (s.timer_handle = none → FlexTimer.stop s = { s with running := false })) ∧
    FlexTimer.stop (FlexTimer.stop s) = FlexTimer.stop s := by
  refine ⟨stop_noop s, stop_not_running s, fun hr => ⟨?_, ?_, ?_⟩,
    stop_noop (FlexTimer.stop s) (stop_not_running s)⟩
  · unfold FlexTimer.stop
    rw [if_pos hr]
    cases hh : s.timer_handle <;> simp [hh]
  · intro h hh
    unfold FlexTimer.stop
    rw [if_pos hr, hh]
  · intro hh
    unfold FlexTimer.stop
    rw [if_pos hr, hh]

/-- Witness for `stop_transition_idempotent` at a started timer: the handle
is cancelled and cleared, a second `stop` adds nothing, and `stop` on the
fresh (stopped) timer is a no-op. -/
theorem stop_transition_idempotent_witness :
    (FlexTimer.stop initSys = initSys) ∧
    ((FlexTimer.stop (FlexTimer.start 3 initSys)).timer_handle = none ∧
      FlexTimer.stop (FlexTimer.start 3 initSys) =
        { FlexTimer.start 3 initSys with
            running := false
            sched := cancelId 0 (FlexTimer.start 3 initSys).sched
            timer_handle := none }) ∧
    FlexTimer.stop (FlexTimer.stop (FlexTimer.start 3 initSys)) =
      FlexTimer.stop (FlexTimer.start 3 initSys) :=
  ⟨(stop_transition_idempotent initSys).1 (by decide),
    ⟨((stop_transition_idempotent (FlexTimer.start 3 initSys)).2.2.1 (by decide)).1,
      ((stop_transition_idempotent (FlexTimer.start 3 initSys)).2.2.1 (by decide)).2.1
        0 (by decide)⟩,
    (stop_transition_idempotent (FlexTimer.start 3 initSys)).2.2.2⟩

/-- C10: `start` performs no validation of its delay — for a negative delay
`d` on a stopped timer it still sets the state to running and schedules the
dispatch at the absolute time `now + d`, which lies in the past, so the
entry is immediately eligible to fire (rather than being rejected or
clamped). -/
theorem start_negative_delay (s : Sys) (d : Int) (hr : s.running = false) (hd : d < 0) :
    (FlexTimer.start d s).running = true ∧
    (FlexTimer.start d s).sched = s.sched ++ [⟨s.nextId, s.now + d, false⟩] ∧
    s.now + d < s.now ∧
    fireEnabled s.nextId (FlexTimer.start d s) = true := by
  have hpast : s.now + d ≤ s.now := by omega
  refine ⟨?_, ?_, by omega, ?_⟩
  · simp [FlexTimer.start, hr]
  · simp [FlexTimer.start, hr]
  · simp [FlexTimer.start, fireEnabled, hr, List.any_append, hpast]

/-- Witness for `start_negative_delay`: `start (-2)` on the fresh timer. -/
theorem start_negative_delay_witness :
    (FlexTimer.start (-2) initSys).running = true ∧
    (FlexTimer.start (-2) initSys).sched =
      initSys.sched ++ [⟨initSys.nextId, initSys.now + (-2), false⟩] ∧
    initSys.now + (-2) < initSys.now ∧
    fireEnabled initSys.nextId (FlexTimer.start (-2) initSys) = true :=
  start_negative_delay initSys (-2) (by decide) (by decide)

/-- C2 counterexample: the at-most-one-outstanding-handle invariant fails on
an interleaving in which `start()` is invoked while an invocation task is in
flight.  Trace: `start(0)`; the handle fires (clearing `timer_handle` and
creating the task); `stop()`; `start(5)` stores a new handle; the old task
then runs, sees `running`, and reschedules — overwriting `timer_handle`
without cancelling the second handle.  The loop is left with two
outstanding uncancelled scheduled entries owned by the one timer. -/
theorem double_handle_counterexample :
    ((runT [TStep.startT 0, TStep.fire 0, TStep.stopT, TStep.startT 5,
        TStep.entry 1, TStep.resume 1 9] initSys).sched.filter
      (fun e => !e.cancelled)).length = 2 := by
  decide

/-- C2 amended: handle-ownership invariant — for every interleaving from the
initial state in which `start()` is never invoked while an invocation task
is in flight (`goodTrace`), at every instant the timer owns at most one
outstanding uncancelled scheduled entry; a running timer has a pending
handle or a live invocation task; and a stopped timer has no pending
handle. -/
theorem handle_ownership_invariant (tr : List TStep)
    (hg : goodTrace initSys tr = true) :
    ((runT tr initSys).sched.filter (fun e => !e.cancelled)).length ≤ 1 ∧
    ((runT tr initSys).running = true →
      (runT tr initSys).timer_handle ≠ none ∨ (runT tr initSys).tasks ≠ []) ∧
    ((runT tr initSys).running = false → (runT tr initSys).timer_handle = none) := by
  have hinv := inv_run tr initSys inv_init hg
  refine ⟨?_, hinv.running_active, hinv.stopped_none⟩
  have h1 : (liveIds (runT tr initSys).sched).length ≤ 1 := by
    rw [hinv.live_eq]
    cases (runT tr initSys).timer_handle <;> simp [handleList]
  simpa [liveIds, List.length_map] using h1

/-- Witness for `handle_ownership_invariant`: a full well-behaved cycle
(start, clock advance, fire, body entry, resume-and-reschedule, stop). -/
theorem handle_ownership_invariant_witness :
    ((runT [TStep.startT 1, TStep.advance 2, TStep.fire 0, TStep.entry 1,
        TStep.resume 1 5, TStep.stopT] initSys).sched.filter
      (fun e => !e.cancelled)).length ≤ 1 ∧
    ((runT [TStep.startT 1, TStep.advance 2, TStep.fire 0, TStep.entry 1,
        TStep.resume 1 5, TStep.stopT] initSys).running = true →
      (runT [TStep.startT 1, TStep.advance 2, TStep.fire 0, TStep.entry 1,
        TStep.resume 1 5, TStep.stopT] initSys).timer_handle ≠ none ∨
      (runT [TStep.startT 1, TStep.advance 2, TStep.fire 0, TStep.entry 1,
        TStep.resume 1 5, TStep.stopT] initSys).tasks ≠ []) ∧
    ((runT [TStep.startT 1, TStep.advance 2, TStep.fire 0, TStep.entry 1,
        TStep.resume 1 5, TStep.stopT] initSys).running = false →
      (runT [TStep.startT 1, TStep.advance 2, TStep.fire 0, TStep.entry 1,
        TStep.resume 1 5, TStep.stopT] initSys).timer_handle = none) :=
  handle_ownership_invariant
    [TStep.startT 1, TStep.advance 2, TStep.fire 0, TStep.entry 1,
      TStep.resume 1 5, TStep.stopT] (by decide)

lemma disabled_step (st : TStep) (s : Sys) (htask : s.tasks = [])
    (hlive : liveIds s.sched = []) (hst : isStartStep st = false) :
    (tstep st s).tasks = [] ∧ liveIds (tstep st s).sched = [] ∧
      (tstep st s).invocations = s.invocations := by
  cases st with
  | startT d => simp [isStartStep] at hst
  | stopT =>
    by_cases hr : s.running = true
    · cases hh : s.timer_handle with
      | none =>
        have he : tstep TStep.stopT s = { s with running := false } := by
          simp only [tstep, FlexTimer.stop, if_pos hr, hh]
        rw [he]
        exact ⟨htask, hlive, rfl⟩
      | some h =>
        have he : tstep TStep.stopT s =
            { s with running := false, sched := cancelId h s.sched, timer_handle := none } := by
          simp only [tstep, FlexTimer.stop, if_pos hr, hh]
        rw [he]
        refine ⟨htask, ?_, rfl⟩
        show liveIds (cancelId h s.sched) = []
        rw [liveIds_cancelId, hlive]
        rfl
    · have he : tstep TStep.stopT s = s := by
        simp only [tstep, FlexTimer.stop, if_neg hr]
      rw [he]
      exact ⟨htask, hlive, rfl⟩
  | advance dt =>
    by_cases hd : (0 : Int) ≤ dt
    · have he : tstep (TStep.advance dt) s = { s with now := s.now + dt } := by
        simp only [tstep, if_pos hd]
      rw [he]
      exact ⟨htask, hlive, rfl⟩
    · have he : tstep (TStep.advance dt) s = s := by
        simp only [tstep, if_neg hd]
      rw [he]
      exact ⟨htask, hlive, rfl⟩
  | fire h =>
    have hen : ¬ (fireEnabled h s = true) := by
      intro hcon
      have := fireEnabled_mem_liveIds h s hcon
      rw [hlive] at this
      simp at this
    have he : tstep (TStep.fire h) s = s := by
      simp only [tstep, if_neg hen]
    rw [he]
    exact ⟨htask, hlive, rfl⟩
  | entry tid =>
    have hmem : ¬ ((tid, TaskPhase.queued) ∈ s.tasks) := by
      rw [htask]
      simp
    have he : tstep (TStep.entry tid) s = s := by
      simp only [tstep, if_neg hmem]
    rw [he]
    exact ⟨htask, hlive, rfl⟩
  | resume tid ret =>
    have hmem : ¬ ((tid, TaskPhase.suspended) ∈ s.tasks) := by
      rw [htask]
      simp
    have he : tstep (TStep.resume tid ret) s = s := by
      simp only [tstep, if_neg hmem]
    rw [he]
    exact ⟨htask, hlive, rfl⟩

lemma disabled_run (tr : List TStep) (s : Sys) (htask : s.tasks = [])
    (hlive : liveIds s.sched = []) (hns : ∀ st ∈ tr, isStartStep st = false) :
    (runT tr s).invocations = s.invocations := by
  induction tr generalizing s with
  | nil => rfl
  | cons st tr ih =>
    have h1 := disabled_step st s htask hlive (hns st (List.mem_cons_self st tr))
    rw [show runT (st :: tr) s = runT tr (tstep st s) from rfl]
    exact (ih (tstep st s) h1.1 h1.2.1
      (fun st2 hm => hns st2 (List.mem_cons_of_mem st hm))).trans h1.2.2

/-- C8 counterexample: an execution in which the user callback raises yet
the timer is NOT left in state Running.  `start(0)`; the handle fires; the
task body invokes the callback (which suspends); `stop()` runs during the
suspension; the awaited result then raises (`resumeRaise`).  The callback
was genuinely invoked (invocation recorded at time 0) and its awaited
computation raised inside the invocation task, but the timer ends Stopped,
refuting the claim that every raising execution leaves the timer Running. -/
theorem raise_after_stop_counterexample :
    ((1, TaskPhase.suspended) ∈
        (runT [TStep.startT 0, TStep.fire 0, TStep.entry 1, TStep.stopT] initSys).tasks) ∧
    (runT [TStep.startT 0, TStep.fire 0, TStep.entry 1, TStep.stopT] initSys).invocations =
      [0] ∧
    (resumeRaise 1
        (runT [TStep.startT 0, TStep.fire 0, TStep.entry 1, TStep.stopT]
          initSys)).running = false := by
  decide

lemma entryRaise_fields (tid : Nat) (s : Sys) :
    (entryRaise tid s).running = s.running ∧
    (entryRaise tid s).timer_handle = s.timer_handle ∧
    (entryRaise tid s).sched = s.sched := by
  unfold entryRaise
  by_cases hmem : (tid, TaskPhase.queued) ∈ s.tasks
  · rw [if_pos hmem]
    by_cases hr : s.running = true
    · rw [if_pos hr]
      exact ⟨rfl, rfl, rfl⟩
    · rw [if_neg hr]
      exact ⟨rfl, rfl, rfl⟩
  · rw [if_neg hmem]
    exact ⟨rfl, rfl, rfl⟩

lemma resumeRaise_fields (tid : Nat) (s : Sys) :
    (resumeRaise tid s).running = s.running ∧
    (resumeRaise tid s).timer_handle = s.timer_handle ∧
    (resumeRaise tid s).sched = s.sched := by
  unfold resumeRaise
  by_cases hmem : (tid, TaskPhase.suspended) ∈ s.tasks
  · rw [if_pos hmem]
    exact ⟨rfl, rfl, rfl⟩
  · rw [if_neg hmem]
    exact ⟨rfl, rfl, rfl⟩

/-- C8 amended: callback failure semantics — a raise by the user callback,
at the invocation point (`entryRaise`) or in its awaited result
(`resumeRaise`), is caught nowhere in the timer and performs no reschedule:
at every state whatsoever, the raising step leaves `running`,
`timer_handle` and the scheduled entries untouched — only the failed task
dies.  In every execution from the initial state in which `start()` is
never invoked while an invocation task is in flight (the same restriction
the handle-ownership invariant needs), the timer at the failure point holds
no pending handle, so it is left with no pending handle and its running
flag exactly as at the failure point — Running for a raise at invocation,
whatever intervening `stop()` calls left for a raise at resumption — and
from the raise-at-invocation state no further callback invocation occurs on
any trace without a new `start()`: the timer is silently disabled. -/
theorem callback_failure_semantics (s : Sys) (tr : List TStep) (tid : Nat)
    (hs : s = runT tr initSys) (hg : goodTrace initSys tr = true) :
    (∀ (s2 : Sys) (tid2 : Nat),
      (entryRaise tid2 s2).running = s2.running ∧
      (entryRaise tid2 s2).timer_handle = s2.timer_handle ∧
      (entryRaise tid2 s2).sched = s2.sched ∧
      (resumeRaise tid2 s2).running = s2.running ∧
      (resumeRaise tid2 s2).timer_handle = s2.timer_handle ∧
      (resumeRaise tid2 s2).sched = s2.sched) ∧
    ((tid, TaskPhase.queued) ∈ s.tasks → s.running = true →
      (entryRaise tid s).running = true ∧
      (entryRaise tid s).timer_handle = none ∧
      (entryRaise tid s).sched = s.sched ∧
      (∀ tr2, (∀ st ∈ tr2, isStartStep st = false) →
        (runT tr2 (entryRaise tid s)).invocations = (entryRaise tid s).invocations)) ∧
    ((tid, TaskPhase.suspended) ∈ s.tasks →
      (resumeRaise tid s).running = s.running ∧
      (resumeRaise tid s).timer_handle = none ∧
      (resumeRaise tid s).sched = s.sched) := by
  have hinv : Inv s := by
    rw [hs]
    exact inv_run tr initSys inv_init hg
  refine ⟨?_, ?_, ?_⟩
  · intro s2 tid2
    obtain ⟨e1, e2, e3⟩ := entryRaise_fields tid2 s2
    obtain ⟨r1, r2, r3⟩ := resumeRaise_fields tid2 s2
    exact ⟨e1, e2, e3, r1, r2, r3⟩
  · intro hmem hr
    have hne : s.tasks ≠ [] := mem_tasks_ne_nil hmem
    have hh : s.timer_handle = none := by
      by_contra hcon
      exact hne (hinv.handle_no_task hcon)
    have hnil : removeTask tid s.tasks = [] :=
      removeTask_eq_nil tid _ s.tasks hinv.tasks_le_one hmem
    have hlive : liveIds s.sched = [] := by
      rw [hinv.live_eq, hh]
      rfl
    have he : entryRaise tid s =
        { s with invocations := s.invocations ++ [s.now], tasks := removeTask tid s.tasks } := by
      simp only [entryRaise, if_pos hmem, if_pos hr]
    rw [he]
    exact ⟨hr, hh, rfl, fun tr2 hns => disabled_run tr2 _ hnil hlive hns⟩
  · intro hmem
    have hne : s.tasks ≠ [] := mem_tasks_ne_nil hmem
    have hh : s.timer_handle = none := by
      by_contra hcon
      exact hne (hinv.handle_no_task hcon)
    have he : resumeRaise tid s = { s with tasks := removeTask tid s.tasks } := by
      simp only [resumeRaise, if_pos hmem]
    rw [he]
    exact ⟨rfl, hh, rfl⟩

/-- Witness for `callback_failure_semantics`: a raise at the invocation
point right after the handle fired on a well-behaved trace (timer stays
Running with no handle, disabled), and a raise at resumption after an
intervening `stop()`. -/
theorem callback_failure_semantics_witness :
    ((entryRaise 1 (runT [TStep.startT 0, TStep.fire 0] initSys)).running = true ∧
      (entryRaise 1 (runT [TStep.startT 0, TStep.fire 0] initSys)).timer_handle = none ∧
      (entryRaise 1 (runT [TStep.startT 0, TStep.fire 0] initSys)).sched =
        (runT [TStep.startT 0, TStep.fire 0] initSys).sched ∧
      (runT [TStep.advance 4, TStep.stopT]
          (entryRaise 1 (runT [TStep.startT 0, TStep.fire 0] initSys))).invocations =
        (entryRaise 1 (runT [TStep.startT 0, TStep.fire 0] initSys)).invocations) ∧
    ((resumeRaise 1 (runT [TStep.startT 0, TStep.fire 0, TStep.entry 1, TStep.stopT]
          initSys)).running =
        (runT [TStep.startT 0, TStep.fire 0, TStep.entry 1, TStep.stopT] initSys).running ∧
      (resumeRaise 1 (runT [TStep.startT 0, TStep.fire 0, TStep.entry 1, TStep.stopT]
          initSys)).timer_handle = none ∧
      (resumeRaise 1 (runT [TStep.startT 0, TStep.fire 0, TStep.entry 1, TStep.stopT]
          initSys)).sched =
        (runT [TStep.startT 0, TStep.fire 0, TStep.entry 1, TStep.stopT] initSys).sched) := by
  constructor
  · have h := (callback_failure_semantics (runT [TStep.startT 0, TStep.fire 0] initSys)
      [TStep.startT 0, TStep.fire 0] 1 rfl (by decide)).2.1 (by decide) (by decide)
    exact ⟨h.1, h.2.1, h.2.2.1, h.2.2.2 [TStep.advance 4, TStep.stopT] (by decide)⟩
  · exact (callback_failure_semantics
      (runT [TStep.startT 0, TStep.fire 0, TStep.entry 1, TStep.stopT] initSys)
      [TStep.startT 0, TStep.fire 0, TStep.entry 1, TStep.stopT] 1 rfl (by decide)).2.2
      (by decide)

/-- C6: `register_callback` dispatch — a coroutine-function callback is
called (constructing the coroutine) and wrapped as a runtime task; a plain
function is queued via the loop's `call_soon` primitive as a partial
application; the operation returns no value beyond the updated loop state,
and no callback body executes before control returns to the loop. -/
theorem register_callback_dispatch (cb : Cb) (s : ELState) :
    (cb.isCoroFn = true →
      register_callback cb s =
        { s with constructed := s.constructed ++ [cb.id], tasks := s.tasks ++ [cb.id] }) ∧
    (cb.isCoroFn = false →
      register_callback cb s = { s with soonQueue := s.soonQueue ++ [cb] }) ∧
    (register_callback cb s).executed = s.executed := by
  refine ⟨fun hc => ?_, fun hc => ?_, ?_⟩
  · simp [register_callback, hc]
  · simp [register_callback, hc]
  · unfold register_callback
    by_cases hc : cb.isCoroFn = true
    · rw [if_pos hc]
    · rw [if_neg hc]

/-- Witness for `register_callback_dispatch`: a coroutine function becomes
a task, a plain function is queued soon, and neither executes. -/
theorem register_callback_dispatch_witness :
    (register_callback ⟨1, true, true⟩ initEL =
      { initEL with constructed := initEL.constructed ++ [1], tasks := initEL.tasks ++ [1] }) ∧
    (register_callback ⟨2, false, false⟩ initEL =
      { initEL with soonQueue := initEL.soonQueue ++ [⟨2, false, false⟩] }) ∧
    (register_callback ⟨2, false, false⟩ initEL).executed = initEL.executed :=
  ⟨(register_callback_dispatch ⟨1, true, true⟩ initEL).1 rfl,
    (register_callback_dispatch ⟨2, false, false⟩ initEL).2.1 rfl,
    (register_callback_dispatch ⟨2, false, false⟩ initEL).2.2⟩

lemma noLiveAsync_iff (i : Nat) (l : List TEntry) :
    noLiveAsync i l = true ↔
      ∀ e ∈ l, e.cancelled = false → payloadAsyncId e.payload ≠ some i := by
  simp only [noLiveAsync, List.all_eq_true, Bool.or_eq_true, decide_eq_true_eq]
  constructor
  · intro h e he hf
    rcases h e he with hc | hp
    · rw [hf] at hc
      exact absurd hc (by simp)
    · exact hp
  · intro h e he
    by_cases hc : e.cancelled = true
    · exact Or.inl hc
    · exact Or.inr (h e he (by simpa using hc))

lemma noLiveAsync_filter (i : Nat) (p : TEntry → Bool) (l : List TEntry)
    (h : noLiveAsync i l = true) : noLiveAsync i (l.filter p) = true := by
  rw [noLiveAsync_iff] at h ⊢
  exact fun e he => h e (List.mem_of_mem_filter he)

lemma noLiveAsync_cancel (i hcan : Nat) (l : List TEntry)
    (h : noLiveAsync i l = true) :
    noLiveAsync i (l.map (fun e =>
      if e.handle = hcan then { e with cancelled := true } else e)) = true := by
  rw [noLiveAsync_iff] at h ⊢
  intro e he hf
  rcases List.mem_map.mp he with ⟨e0, he0, heq⟩
  by_cases hh : e0.handle = hcan
  · rw [if_pos hh] at heq
    rw [← heq] at hf
    simp at hf
  · rw [if_neg hh] at heq
    rw [← heq] at hf ⊢
    exact h e0 he0 hf

lemma invokePlain_timerQueue (cb : Cb) (s : ELState) :
    (invokePlain cb s).timerQueue = s.timerQueue := by
  unfold invokePlain
  by_cases hr : cb.returnsAwaitable = true
  · rw [if_pos hr]
  · rw [if_neg hr]

lemma invokePlain_constructed (cb : Cb) (s : ELState) :
    (invokePlain cb s).constructed = s.constructed := by
  unfold invokePlain
  by_cases hr : cb.returnsAwaitable = true
  · rw [if_pos hr]
  · rw [if_neg hr]

lemma invokePlain_orphans_super (cb : Cb) (s : ELState) :
    s.orphans ⊆ (invokePlain cb s).orphans := by
  unfold invokePlain
  by_cases hr : cb.returnsAwaitable = true
  · rw [if_pos hr]
    exact fun a ha => List.mem_append.mpr (Or.inl ha)
  · rw [if_neg hr]
    exact fun a ha => ha

lemma noLiveAsync_step (i : Nat) (st : ELStep) (s : ELState)
    (hq : noLiveAsync i s.timerQueue = true) (hc : i ∉ s.constructed) :
    noLiveAsync i (elstep st s).timerQueue = true ∧ i ∉ (elstep st s).constructed := by
  cases st with
  | advance dt =>
    by_cases hd : (0 : Int) ≤ dt
    · have he : elstep (ELStep.advance dt) s = { s with now := s.now + dt } := by
        simp only [elstep, if_pos hd]
      rw [he]
      exact ⟨hq, hc⟩
    · have he : elstep (ELStep.advance dt) s = s := by
        simp only [elstep, if_neg hd]
      rw [he]
      exact ⟨hq, hc⟩
  | fireTimer h =>
    cases hf : s.timerQueue.find?
        (fun e => e.handle == h && !e.cancelled && decide (e.time ≤ s.now)) with
    | none =>
      have he : elstep (ELStep.fireTimer h) s = s := by
        simp only [elstep, hf]
      rw [he]
      exact ⟨hq, hc⟩
    | some e =>
      have hmem : e ∈ s.timerQueue := List.mem_of_find?_eq_some hf
      have hpe := List.find?_some hf
      have hcanc : e.cancelled = false := by
        simp only [Bool.and_eq_true, Bool.not_eq_true'] at hpe
        exact hpe.1.2
      have hnot : payloadAsyncId e.payload ≠ some i :=
        (noLiveAsync_iff i s.timerQueue).mp hq e hmem hcanc
      have hq2 : noLiveAsync i
          (s.timerQueue.filter (fun e2 => e2.handle ≠ h)) = true :=
        noLiveAsync_filter i _ s.timerQueue hq
      cases hp : e.payload with
      | asyncThunk cb =>
        have hne : cb.id ≠ i := by
          rw [hp] at hnot
          simpa [payloadAsyncId] using hnot
        have he : elstep (ELStep.fireTimer h) s =
            async_callback cb
              { s with timerQueue := s.timerQueue.filter (fun e2 => e2.handle ≠ h) } := by
          simp only [elstep, hf, hp]
        rw [he]
        unfold async_callback
        refine ⟨hq2, ?_⟩
        intro hin
        rcases List.mem_append.mp hin with hin | hin
        · exact hc hin
        · rw [List.mem_singleton] at hin
          exact hne hin.symm
      | plainThunk cb =>
        have he : elstep (ELStep.fireTimer h) s =
            invokePlain cb
              { s with timerQueue := s.timerQueue.filter (fun e2 => e2.handle ≠ h) } := by
          simp only [elstep, hf, hp]
        rw [he, invokePlain_timerQueue, invokePlain_constructed]
        exact ⟨hq2, hc⟩
  | runSoon =>
    cases hsq : s.soonQueue with
    | nil =>
      have he : elstep ELStep.runSoon s = s := by
        simp only [elstep, hsq]
      rw [he]
      exact ⟨hq, hc⟩
    | cons cb rest =>
      have he : elstep ELStep.runSoon s = invokePlain cb { s with soonQueue := rest } := by
        simp only [elstep, hsq]
      rw [he, invokePlain_timerQueue, invokePlain_constructed]
      exact ⟨hq, hc⟩
  | runTask =>
    cases ht : s.tasks with
    | nil =>
      have he : elstep ELStep.runTask s = s := by
        simp only [elstep, ht]
      rw [he]
      exact ⟨hq, hc⟩
    | cons t rest =>
      have he : elstep ELStep.runTask s =
          { s with tasks := rest, executed := s.executed ++ [t] } := by
        simp only [elstep, ht]
      rw [he]
      exact ⟨hq, hc⟩
  | cancelTimer h =>
    have he : elstep (ELStep.cancelTimer h) s =
        { s with timerQueue := s.timerQueue.map (fun e =>
            if e.handle = h then { e with cancelled := true } else e) } := by
      simp only [elstep]
    rw [he]
    exact ⟨noLiveAsync_cancel i h s.timerQueue hq, hc⟩

lemma noLiveAsync_run (i : Nat) (tr : List ELStep) (s : ELState)
    (hq : noLiveAsync i s.timerQueue = true) (hc : i ∉ s.constructed) :
    noLiveAsync i (runEL tr s).timerQueue = true ∧ i ∉ (runEL tr s).constructed := by
  induction tr generalizing s with
  | nil => exact ⟨hq, hc⟩
  | cons st tr ih =>
    have h1 := noLiveAsync_step i st s hq hc
    rw [show runEL (st :: tr) s = runEL tr (elstep st s) from rfl]
    exact ih (elstep st s) h1.1 h1.2

lemma find?_append_single (p : TEntry → Bool) (l : List TEntry) (a : TEntry)
    (hl : ∀ x ∈ l, p x = false) (ha : p a = true) :
    (l ++ [a]).find? p = some a := by
  induction l with
  | nil =>
    rw [List.nil_append]
    exact List.find?_cons_of_pos [] ha
  | cons x xs ih =>
    rw [List.cons_append,
      List.find?_cons_of_neg _ (by simp [hl x (List.mem_cons_self x xs)])]
    exact ih (fun y hy => hl y (List.mem_cons_of_mem x hy))

/-- C7: deferred coroutine construction — `delay_callback` with a
coroutine-function callback stores only a zero-argument factory
(`asyncThunk`, the partial application handed to `_async_callback`) in the
`call_later` entry: nothing is constructed at scheduling time.  If the
returned handle is cancelled before firing, then along every subsequent
trace of loop events the coroutine object for that callback is never
constructed, so cancelling can never leak an un-awaited coroutine.  When
instead the entry fires (clock advanced past the delay), the firing step is
exactly `_async_callback`: construction plus task creation at fire time. -/
theorem deferred_coroutine_construction (cb : Cb) (s : ELState) (d : Int)
    (hc : cb.isCoroFn = true) (hfresh : cb.id ∉ s.constructed)
    (hq : noLiveAsync cb.id s.timerQueue = true) :
    ((delay_callback d cb s).1.constructed = s.constructed) ∧
    ((delay_callback d cb s).1.timerQueue =
      s.timerQueue ++ [⟨s.nextH, s.now + d, false, Payload.asyncThunk cb⟩]) ∧
    (∀ tr, cb.id ∉
      (runEL tr (elstep (ELStep.cancelTimer (delay_callback d cb s).2)
        (delay_callback d cb s).1)).constructed) ∧
    ((∀ e2 ∈ s.timerQueue, e2.handle ≠ s.nextH) → 0 ≤ d →
      cb.id ∈ (elstep (ELStep.fireTimer (delay_callback d cb s).2)
        (elstep (ELStep.advance d) (delay_callback d cb s).1)).constructed ∧
      cb.id ∈ (elstep (ELStep.fireTimer (delay_callback d cb s).2)
        (elstep (ELStep.advance d) (delay_callback d cb s).1)).tasks) := by
  have hd : delay_callback d cb s =
      ({ s with
          timerQueue :=
            s.timerQueue ++ [⟨s.nextH, s.now + d, false, Payload.asyncThunk cb⟩]
          nextH := s.nextH + 1 }, s.nextH) := by
    simp [delay_callback, hc]
  refine ⟨by rw [hd], by rw [hd], ?_, ?_⟩
  · intro tr
    have he : elstep (ELStep.cancelTimer (delay_callback d cb s).2) (delay_callback d cb s).1 =
        { s with
            timerQueue :=
              (s.timerQueue ++ [(⟨s.nextH, s.now + d, false, Payload.asyncThunk cb⟩ : TEntry)]).map
                (fun (e : TEntry) => if e.handle = s.nextH then { e with cancelled := true } else e)
            nextH := s.nextH + 1 } := by
      rw [hd]
      simp only [elstep]
    rw [he]
    have hq2 : noLiveAsync cb.id
        ((s.timerQueue ++ [(⟨s.nextH, s.now + d, false, Payload.asyncThunk cb⟩ : TEntry)]).map
          (fun (e : TEntry) => if e.handle = s.nextH then { e with cancelled := true } else e)) = true := by
      rw [List.map_append]
      rw [noLiveAsync_iff]
      intro e he2 hf
      rcases List.mem_append.mp he2 with he2 | he2
      · exact (noLiveAsync_iff cb.id _).mp
          (noLiveAsync_cancel cb.id s.nextH s.timerQueue hq) e he2 hf
      · simp only [List.map_singleton, List.mem_singleton] at he2
        rw [he2] at hf
        simp at hf
    exact (noLiveAsync_run cb.id tr
      { s with
          timerQueue :=
            (s.timerQueue ++ [(⟨s.nextH, s.now + d, false, Payload.asyncThunk cb⟩ : TEntry)]).map
              (fun (e : TEntry) => if e.handle = s.nextH then { e with cancelled := true } else e)
          nextH := s.nextH + 1 } hq2 hfresh).2
  · intro hh hd0
    have he3 : elstep (ELStep.advance d) (delay_callback d cb s).1 =
        { s with
            timerQueue :=
              s.timerQueue ++ [(⟨s.nextH, s.now + d, false, Payload.asyncThunk cb⟩ : TEntry)]
            nextH := s.nextH + 1
            now := s.now + d } := by
      rw [hd]
      simp only [elstep, if_pos hd0]
    have hfind : (({ s with
        timerQueue :=
          s.timerQueue ++ [(⟨s.nextH, s.now + d, false, Payload.asyncThunk cb⟩ : TEntry)]
        nextH := s.nextH + 1
        now := s.now + d } : ELState).timerQueue).find?
          (fun e => e.handle == s.nextH && !e.cancelled && decide (e.time ≤ s.now + d)) =
        some (⟨s.nextH, s.now + d, false, Payload.asyncThunk cb⟩ : TEntry) := by
      refine find?_append_single _ _ _ ?_ ?_
      · intro x hx
        have hxne : (x.handle == s.nextH) = false := by
          simpa using hh x hx
        simp [hxne]
      · simp
    have he4 : elstep (ELStep.fireTimer (delay_callback d cb s).2)
        (elstep (ELStep.advance d) (delay_callback d cb s).1) =
        async_callback cb
          { s with
              timerQueue :=
                (s.timerQueue ++
                  [(⟨s.nextH, s.now + d, false, Payload.asyncThunk cb⟩ : TEntry)]).filter
                    (fun e2 => e2.handle ≠ s.nextH)
              nextH := s.nextH + 1
              now := s.now + d } := by
      rw [he3, hd]
      simp only [elstep, hfind]
    rw [he4]
    unfold async_callback
    constructor
    · exact List.mem_append.mpr (Or.inr (List.mem_singleton.mpr rfl))
    · exact List.mem_append.mpr (Or.inr (List.mem_singleton.mpr rfl))

/-- Witness for `deferred_coroutine_construction`: delay a coroutine
callback on the fresh loop; cancelling the handle and then advancing past
the delay and attempting to fire never constructs the coroutine, while
firing without cancelling constructs it and creates the task. -/
theorem deferred_coroutine_construction_witness :
    ((delay_callback 3 ⟨7, true, false⟩ initEL).1.constructed = initEL.constructed) ∧
    ((delay_callback 3 ⟨7, true, false⟩ initEL).1.timerQueue =
      initEL.timerQueue ++
        [⟨initEL.nextH, initEL.now + 3, false, Payload.asyncThunk ⟨7, true, false⟩⟩]) ∧
    (7 ∉ (runEL [ELStep.advance 5, ELStep.fireTimer 0, ELStep.runSoon, ELStep.runTask]
      (elstep (ELStep.cancelTimer (delay_callback 3 ⟨7, true, false⟩ initEL).2)
        (delay_callback 3 ⟨7, true, false⟩ initEL).1)).constructed) ∧
    (7 ∈ (elstep (ELStep.fireTimer (delay_callback 3 ⟨7, true, false⟩ initEL).2)
      (elstep (ELStep.advance 3)
        (delay_callback 3 ⟨7, true, false⟩ initEL).1)).constructed) := by
  have h := deferred_coroutine_construction ⟨7, true, false⟩ initEL 3
    (by decide) (by decide) (by decide)
  exact ⟨h.1, h.2.1,
    h.2.2.1 [ELStep.advance 5, ELStep.fireTimer 0, ELStep.runSoon, ELStep.runTask],
    (h.2.2.2 (by decide) (by decide)).1⟩

/-- C9: classification by introspection of the function, not of its return
value — a plain (non-coroutine) function whose call returns an awaitable is
treated as synchronous by both operations: `register_callback` queues it
via `call_soon` (no task creation, nothing constructed), `delay_callback`
stores it as a plain thunk; when the loop later runs it the body executes
and the returned awaitable is discarded as an orphan, never turned into a
task (the `tasks` field is untouched), and orphans are never consumed by
any later loop event. -/
theorem sync_classification_discards_awaitable (cb : Cb) (s : ELState) (d : Int)
    (h1 : cb.isCoroFn = false) (h2 : cb.returnsAwaitable = true) :
    (register_callback cb s = { s with soonQueue := s.soonQueue ++ [cb] }) ∧
    ((delay_callback d cb s).1.timerQueue =
      s.timerQueue ++ [⟨s.nextH, s.now + d, false, Payload.plainThunk cb⟩]) ∧
    (∀ rest, s.soonQueue = cb :: rest →
      elstep ELStep.runSoon s =
        { s with soonQueue := rest, executed := s.executed ++ [cb.id]
                 orphans := s.orphans ++ [cb.id] }) ∧
    (∀ st s2, s2.orphans ⊆ (elstep st s2).orphans) := by
  refine ⟨?_, ?_, ?_, ?_⟩
  · simp [register_callback, h1]
  · simp [delay_callback, h1]
  · intro rest hsq
    simp only [elstep, hsq, invokePlain, if_pos h2]
  · intro st s2
    cases st with
    | advance dt =>
      by_cases hdt : (0 : Int) ≤ dt
      · have he : elstep (ELStep.advance dt) s2 = { s2 with now := s2.now + dt } := by
          simp only [elstep, if_pos hdt]
        rw [he]
        exact fun a ha => ha
      · have he : elstep (ELStep.advance dt) s2 = s2 := by
          simp only [elstep, if_neg hdt]
        rw [he]
        exact fun a ha => ha
    | fireTimer h =>
      cases hf : s2.timerQueue.find?
          (fun e => e.handle == h && !e.cancelled && decide (e.time ≤ s2.now)) with
      | none =>
        have he : elstep (ELStep.fireTimer h) s2 = s2 := by
          simp only [elstep, hf]
        rw [he]
        exact fun a ha => ha
      | some e =>
        cases hp : e.payload with
        | asyncThunk cb2 =>
          have he : elstep (ELStep.fireTimer h) s2 =
              async_callback cb2
                { s2 with timerQueue := s2.timerQueue.filter (fun e2 => e2.handle ≠ h) } := by
            simp only [elstep, hf, hp]
          rw [he]
          unfold async_callback
          exact fun a ha => ha
        | plainThunk cb2 =>
          have he : elstep (ELStep.fireTimer h) s2 =
              invokePlain cb2
                { s2 with timerQueue := s2.timerQueue.filter (fun e2 => e2.handle ≠ h) } := by
            simp only [elstep, hf, hp]
          rw [he]
          intro a ha
          exact invokePlain_orphans_super cb2 _ ha
    | runSoon =>
      cases hsq : s2.soonQueue with
      | nil =>
        have he : elstep ELStep.runSoon s2 = s2 := by
          simp only [elstep, hsq]
        rw [he]
        exact fun a ha => ha
      | cons cb2 rest =>
        have he : elstep ELStep.runSoon s2 = invokePlain cb2 { s2 with soonQueue := rest } := by
          simp only [elstep, hsq]
        rw [he]
        intro a ha
        exact invokePlain_orphans_super cb2 _ ha
    | runTask =>
      cases ht : s2.tasks with
      | nil =>
        have he : elstep ELStep.runTask s2 = s2 := by
          simp only [elstep, ht]
        rw [he]
        exact fun a ha => ha
      | cons t rest =>
        have he : elstep ELStep.runTask s2 =
            { s2 with tasks := rest, executed := s2.executed ++ [t] } := by
          simp only [elstep, ht]
        rw [he]
        exact fun a ha => ha
    | cancelTimer h =>
      have he : elstep (ELStep.cancelTimer h) s2 =
          { s2 with timerQueue := s2.timerQueue.map (fun e =>
              if e.handle = h then { e with cancelled := true } else e) } := by
        simp only [elstep]
      rw [he]
      exact fun a ha => ha

/-- Witness for `sync_classification_discards_awaitable`: a plain callback
returning an awaitable, queued on the fresh loop and then run: executed,
orphaned, never a task. -/
theorem sync_classification_discards_awaitable_witness :
    (register_callback ⟨3, false, true⟩ initEL =
      { initEL with soonQueue := initEL.soonQueue ++ [⟨3, false, true⟩] }) ∧
    ((delay_callback 2 ⟨3, false, true⟩ initEL).1.timerQueue =
      initEL.timerQueue ++
        [⟨initEL.nextH, initEL.now + 2, false, Payload.plainThunk ⟨3, false, true⟩⟩]) ∧
    (elstep ELStep.runSoon (register_callback ⟨3, false, true⟩ initEL) =
      { register_callback ⟨3, false, true⟩ initEL with
          soonQueue := []
          executed := (register_callback ⟨3, false, true⟩ initEL).executed ++ [3]
          orphans := (register_callback ⟨3, false, true⟩ initEL).orphans ++ [3] }) := by
  have h := sync_classification_discards_awaitable ⟨3, false, true⟩
    (register_callback ⟨3, false, true⟩ initEL) 2 (by decide) (by decide)
  have h0 := sync_classification_discards_awaitable ⟨3, false, true⟩ initEL 2
    (by decide) (by decide)
  exact ⟨h0.1, h0.2.1, h.2.2.1 [] (by decide)⟩

end Moonraker
